import Mathlib

/-!
Shallow embedding of the appointment-booking core in `src/backend/server.js`.

Times are modelled as integer minutes in the single fixed zone
(Asia/Jerusalem): a calendar day is 1440 minutes, day `k` covering
`[1440*k, 1440*(k+1))`.  Day 0 (1970-01-01) is a Thursday, so luxon's ISO
weekday (1 = Monday .. 7 = Sunday) of day `k` is `(k + 3) % 7 + 1`.
`Int./` is Euclidean division, which for the positive divisor 1440 agrees
with floor division, matching `startOf('day')`.

The sqlite rows carry `startTime`/`endTime` as ISO strings of that fixed
zone, on which SQL string comparison agrees with chronological order; the
embedding compares the minute values directly.  Row ids, `created_at` and
`phone` are plumbing that no scheduling decision reads, and are dropped.
-/

/-- A JavaScript scalar as it can appear in the free-form `details` bag
after JSON parsing: absent field, number, string, or boolean. -/
inductive JVal where
  | absent
  | num (n : Int)
  | str (s : String)
  | bool (b : Bool)
deriving Repr, DecidableEq

/-- JavaScript truthiness of a `details` field value. -/
def JVal.truthy : JVal → Bool
  | .absent => false
  | .num n => n != 0
  | .str s => s != ""
  | .bool b => b

/-- `String.prototype.trim()`: strip whitespace at both ends. -/
def jsTrim (s : String) : String :=
  ⟨((s.data.dropWhile Char.isWhitespace).reverse.dropWhile Char.isWhitespace).reverse⟩

/-- `String.prototype.toLowerCase()` (Hebrew letters are caseless, so
per-character lowering matches). -/
def jsToLower (s : String) : String := ⟨s.data.map Char.toLower⟩

/-- `hay.includes(needle)`: substring containment. -/
def strIncludes (hay needle : String) : Bool := decide (needle.data <:+: hay.data)

/-- `parseInt(s, 10)` on a string: skip leading whitespace, optional sign,
then base-10 digits; `none` models `NaN` (no digits found). -/
def parseIntStr (s : String) : Option Int :=
  let t := s.data.dropWhile Char.isWhitespace
  let sign : Int := match t with
    | '-' :: _ => -1
    | _ => 1
  let rest : List Char := match t with
    | '-' :: r => r
    | '+' :: r => r
    | r => r
  let digits := rest.takeWhile Char.isDigit
  if digits.isEmpty then none
  else some (sign * digits.foldl (fun acc c => acc * 10 + ((c.toNat : Int) - 48)) 0)

/-- `parseInt(v, 10)` on a scalar; `none` models `NaN`. -/
def parseIntJS : JVal → Option Int
  | .absent => none
  | .num n => some n
  | .str s => parseIntStr s
  | .bool _ => none

/-- The recognized fields of a (parsed) `details` bag.  `parseDetails`
in the source turns a malformed JSON string into `{}`, i.e. all fields
`.absent`; unrecognized fields are never read. -/
structure Details where
  sodi : JVal
  anan : JVal
  numS : JVal
  numA : JVal
deriving Repr, DecidableEq

instance : Inhabited Details := ⟨⟨.absent, .absent, .absent, .absent⟩⟩

/-- `parseInt(details.sodi || details.numS || 0, 10) || 0` — the
primary ("sodi") unit count. -/
def unitS (d : Details) : Int :=
  (parseIntJS (if d.sodi.truthy then d.sodi else if d.numS.truthy then d.numS else .num 0)).getD 0

/-- `parseInt(details.anan || details.numA || 0, 10) || 0` — the
secondary ("anan") unit count. -/
def unitA (d : Details) : Int :=
  (parseIntJS (if d.anan.truthy then d.anan else if d.numA.truthy then d.numA else .num 0)).getD 0

/-- `(serviceType || '').toString().trim().toLowerCase()`. -/
def normType (serviceType : String) : String := jsToLower (jsTrim serviceType)

/-- `st === 'kidud' || st.includes('kidud') || st.includes('קידוד')`
on the normalized service type. -/
def isKidud (serviceType : String) : Bool :=
  let st := normType serviceType
  st == "kidud" || strIncludes st "kidud" || strIncludes st "קידוד"

/-- The fixed service-type → duration table of `computeDuration`. -/
def durationMap : List (String × Int) :=
  [("אישור הוצל\"א", 15),
   ("השחרה", 15),
   ("טיולים יוצא", 5),
   ("טופס טיולים - יוצא", 5),
   ("חו\"ל", 5),
   ("טופס חו\"ל", 5),
   ("אישור כניסה קבוע", 5),
   ("hotzla", 15),
   ("hashchara", 15),
   ("tiulim-out", 5),
   ("chul", 5)]

/-- `computeDuration(serviceType, details)`: kidud requests get
`max(numS*10, numA*10)` floored at 10; otherwise the table is consulted,
first by exact key (`map[serviceType]`, every table value is truthy),
then case-insensitively; unknown types default to 5 minutes. -/
def computeDuration (serviceType : String) (details : Details) : Int :=
  let st := normType serviceType
  if isKidud serviceType then
    let numS := unitS details
    let numA := unitA details
    let sMinutes := numS * 10
    let aMinutes := numA * 10
    let maxMinutes := max sMinutes aMinutes
    max maxMinutes 10
  else
    match durationMap.find? (fun p => p.1 == serviceType) with
    | some p => p.2
    | none =>
      match durationMap.find? (fun p => jsToLower p.1 == st) with
      | some p => p.2
      | none => 5

/-- A persisted appointment row (id / created_at / phone dropped: no
scheduling decision reads them; `details` is stored JSON-stringified and
re-parsed, which round-trips, so it is kept structurally). -/
structure Booking where
  serviceType : String
  details : Details
  startTime : Int
  endTime : Int
  done : Bool
deriving Repr, DecidableEq

/-- Result of `checkConflicts`: `ok` with an optional rejection message. -/
structure CheckResult where
  ok : Bool
  message : String
deriving Repr, DecidableEq

/-- `SELECT * FROM appointments WHERE NOT (endTime <= start OR startTime >= end)`:
the rows truly overlapping the half-open candidate interval. -/
def overlapping (store : List Booking) (startT endT : Int) : List Booking :=
  store.filter (fun r => !(decide (r.endTime ≤ startT) || decide (r.startTime ≥ endT)))

/-- The per-row body of `checkConflicts`' kidud loop: the first rejection
message this row triggers, if any. -/
def kidudRowMsg (newS newA : Int) (r : Booking) : Option String :=
  if isKidud r.serviceType then
    let rS := unitS r.details
    let rA := unitA r.details
    if newS > 0 && rS > 0 then
      some "לא ניתן לקבוע שני קידודים על אותה רשת סודי/סודי ביותר באותו זמן"
    else if newA > 0 && rA > 0 then
      some "לא ניתן לקבוע שני קידודים על אותה רשת ענן באותו זמן"
    else none
  else none

/-- `checkConflicts(startISO, endISO, serviceType, details)` as a pure
decision over the store: reject when two or more rows overlap; otherwise,
for a kidud candidate, reject on the first overlapping kidud row sharing a
positive sodi count (or, failing that, a positive anan count). -/
def checkConflicts (store : List Booking) (startT endT : Int)
    (serviceType : String) (details : Details) : CheckResult :=
  let rows := overlapping store startT endT
  if rows.length ≥ 2 then
    ⟨false, "במועד זה כבר קיימים שני תורים חופפים"⟩
  else if isKidud serviceType then
    let newS := unitS details
    let newA := unitA details
    match rows.findSome? (kidudRowMsg newS newA) with
    | some msg => ⟨false, msg⟩
    | none => ⟨true, ""⟩
  else ⟨true, ""⟩

/-- One entry of `WORKING_BLOCKS`, with the `'HH:mm'` strings parsed to
minutes from the day's start. -/
structure WorkBlock where
  startMin : Int
  endMin : Int
deriving Repr, DecidableEq

/-- `WORKING_BLOCKS`: 08:30–11:30, 16:30–18:30, 20:30–22:00. -/
def WORKING_BLOCKS : List WorkBlock := [⟨510, 690⟩, ⟨990, 1110⟩, ⟨1230, 1320⟩]

/-- `SLOT_STEP_MIN = 5`: the slot granularity in minutes. -/
def SLOT_STEP_MIN : Int := 5

/-- A candidate slot as pushed by `generateSlotsForDay`. -/
structure Slot where
  start : Int
  blockEnd : Int
deriving Repr, DecidableEq

/-- The body of the `while (current <= blockEnd.minus({minutes: 1}))`
loop of `generateSlotsForDay`, stepping `SLOT_STEP_MIN` minutes.  The
loop strictly shrinks `blockEnd - current`, so running it with
`(blockEnd - current).toNat` iterations of fuel (as `slotLoop` does)
never cuts it short. -/
def slotLoopAux : Nat → Int → Int → List Slot
  | 0, _, _ => []
  | fuel + 1, current, blockEnd =>
    if current ≤ blockEnd - 1 then
      ⟨current, blockEnd⟩ :: slotLoopAux fuel (current + SLOT_STEP_MIN) blockEnd
    else []

/-- The `while` loop of `generateSlotsForDay` for one working block. -/
def slotLoop (current blockEnd : Int) : List Slot :=
  slotLoopAux (blockEnd - current).toNat current blockEnd

/-- `generateSlotsForDay(day)`: the slots of every working block of the
day, block by block. -/
def generateSlotsForDay (dayStart : Int) : List Slot :=
  (WORKING_BLOCKS.map (fun blk =>
    slotLoop (dayStart + blk.startMin) (dayStart + blk.endMin))).flatten

/-- The calendar-day index containing minute `t`. -/
def dayOf (t : Int) : Int := t / 1440

/-- `startOf('day')` in minutes. -/
def startOfDay (t : Int) : Int := dayOf t * 1440

/-- `a.hasSame(b, 'day')`. -/
def sameDay (a b : Int) : Bool := dayOf a == dayOf b

/-- luxon's ISO weekday (1 = Monday .. 7 = Sunday) of calendar day `d`. -/
def weekdayOf (d : Int) : Int := (d + 3) % 7 + 1

/-- `[5, 6].includes(day.weekday)`: Friday or Saturday, the two
designated weekend days. -/
def isWeekendDay (d : Int) : Bool := weekdayOf d == 5 || weekdayOf d == 6

/-- `fitsWithinBlock(startDT, endDT)`: some working block of `startT`'s
calendar day contains the whole interval. -/
def fitsWithinBlock (startT endT : Int) : Bool :=
  let day := startOfDay startT
  WORKING_BLOCKS.any (fun blk =>
    decide (startT ≥ day + blk.startMin) && decide (endT ≤ day + blk.endMin))

/-- The per-slot admissibility test shared by `findNextAvailableSlot`'s
inner loop and the `/availability` handler: not a past slot of the
current day, the interval fits a block, and `checkConflicts` accepts. -/
def slotPred (store : List Booking) (serviceType : String) (details : Details)
    (durationMin now : Int) (s : Slot) : Bool :=
  !(decide (s.start < now) && sameDay s.start now) &&
    fitsWithinBlock s.start (s.start + durationMin) &&
    (checkConflicts store s.start (s.start + durationMin) serviceType details).ok

/-- The inner (per-day) loop of `findNextAvailableSlot`: the first
admissible slot of the day, with its end. -/
def searchDay (store : List Booking) (serviceType : String) (details : Details)
    (durationMin now day : Int) : Option (Int × Int) :=
  ((generateSlotsForDay day).find? (slotPred store serviceType details durationMin now)).map
    (fun s => (s.start, s.start + durationMin))

/-- The day loop of `findNextAvailableSlot`, with `n` iterations left
(the source runs `dayOffset = 0 .. maxDays`, i.e. `maxDays + 1`
iterations): weekend days are skipped (`continue`), and with
`sameDayOnly` the loop breaks after the first day. -/
def findGo (store : List Booking) (serviceType : String) (details : Details)
    (durationMin now : Int) (sameDayOnly : Bool) : Int → Nat → Option (Int × Int)
  | _, 0 => none
  | day, n + 1 =>
    match (if isWeekendDay (dayOf day) then none
           else searchDay store serviceType details durationMin now day) with
    | some r => some r
    | none => if sameDayOnly then none
              else findGo store serviceType details durationMin now sameDayOnly (day + 1440) n

/-- `findNextAvailableSlot(serviceType, details, fromDT, sameDayOnly, maxDays)`.
`now` (read from the clock in the source) is passed explicitly. -/
def findNextAvailableSlot (store : List Booking) (serviceType : String) (details : Details)
    (fromT now : Int) (sameDayOnly : Bool) (maxDays : Nat) : Option (Int × Int) :=
  let durationMin := computeDuration serviceType details
  findGo store serviceType details durationMin now sameDayOnly (startOfDay fromT) (maxDays + 1)

/-- `GET /availability`: the admissible start minutes of the requested
day — empty for a weekend day, else the generated slots surviving the
past-slot skip, the block-fit check and `checkConflicts`.  Nothing is
persisted. -/
def availabilityForDay (store : List Booking) (serviceType : String) (details : Details)
    (dateT now : Int) : List Int :=
  let duration := computeDuration serviceType details
  let dayStart := startOfDay dateT
  if isWeekendDay (dayOf dayStart) then []
  else
    ((generateSlotsForDay dayStart).filter
      (slotPred store serviceType details duration now)).map (fun s => s.start)

/-- Outcome of the explicit-time branch of `POST /book`. -/
inductive BookResult where
  | invalidInterval
  | conflict (message : String)
  | booked (startTime endTime : Int) (newStore : List Booking)
deriving Repr, DecidableEq

/-- The explicit-time (`isPhysical`) branch of `POST /book`: compute the
duration, build `[startT, startT + duration)`, reject if it fits no
working block, reject with the conflict message if `checkConflicts`
rejects, else insert the row. -/
def bookExplicit (store : List Booking) (serviceType : String) (details : Details)
    (startT : Int) (done : Bool) : BookResult :=
  let duration := computeDuration serviceType details
  let endT := startT + duration
  if fitsWithinBlock startT endT then
    let conflict := checkConflicts store startT endT serviceType details
    if conflict.ok then
      .booked startT endT (store ++ [⟨serviceType, details, startT, endT, done⟩])
    else .conflict conflict.message
  else .invalidInterval

example : computeDuration "kidud" ⟨.num 3, .absent, .absent, .absent⟩ = 30 := by decide
example : computeDuration "kidud" ⟨.absent, .num 1, .absent, .absent⟩ = 10 := by decide
example : computeDuration "chul" default = 5 := by decide
example : computeDuration "strange" default = 5 := by decide
example : computeDuration "השחרה" default = 15 := by decide
example : (generateSlotsForDay 0).length = 78 := by decide
example : (generateSlotsForDay 0).head? = some ⟨510, 690⟩ := by decide
example : fitsWithinBlock 510 515 = true := by decide
example : fitsWithinBlock 688 695 = false := by decide
example : isWeekendDay 1 = true := by decide
example : isWeekendDay 0 = false := by decide

/-! ### Structural lemmas about slot generation and the day loop -/

lemma dayOf_startOfDay (t : Int) : dayOf (startOfDay t) = dayOf t := by
  simp only [dayOf, startOfDay]
  omega

lemma startOfDay_dvd (t : Int) : 1440 ∣ startOfDay t := ⟨dayOf t, by simp [startOfDay]; ring⟩

lemma slotLoopAux_mem : ∀ (fuel : Nat) (cur be : Int) (s : Slot),
    s ∈ slotLoopAux fuel cur be → cur ≤ s.start ∧ s.start ≤ be - 1 ∧ s.blockEnd = be := by
  intro fuel
  induction fuel with
  | zero => intro cur be s h; simp [slotLoopAux] at h
  | succ n ih =>
    intro cur be s h
    simp only [slotLoopAux] at h
    split_ifs at h with hc
    · rcases List.mem_cons.mp h with h1 | h1
      · subst h1; exact ⟨le_refl _, hc, rfl⟩
      · obtain ⟨h1, h2, h3⟩ := ih (cur + SLOT_STEP_MIN) be s h1
        refine ⟨?_, h2, h3⟩
        simp only [SLOT_STEP_MIN] at h1
        omega
    · simp at h

lemma slotLoopAux_pairwise : ∀ (fuel : Nat) (cur be : Int),
    (slotLoopAux fuel cur be).Pairwise (fun a b => a.start < b.start) := by
  intro fuel
  induction fuel with
  | zero => intro cur be; simp [slotLoopAux]
  | succ n ih =>
    intro cur be
    simp only [slotLoopAux]
    split_ifs with hc
    · refine List.Pairwise.cons ?_ (ih _ _)
      intro b hb
      obtain ⟨h1, -, -⟩ := slotLoopAux_mem n (cur + SLOT_STEP_MIN) be b hb
      simp only [SLOT_STEP_MIN] at h1
      show cur < b.start
      omega
    · simp

lemma generateSlotsForDay_mem (day : Int) (s : Slot) (h : s ∈ generateSlotsForDay day) :
    day + 510 ≤ s.start ∧ s.start ≤ day + 1319 := by
  simp [generateSlotsForDay, WORKING_BLOCKS, slotLoop] at h
  rcases h with h | h | h <;>
    · obtain ⟨h1, h2, -⟩ := slotLoopAux_mem _ _ _ _ h
      omega

lemma generateSlotsForDay_pairwise (day : Int) :
    (generateSlotsForDay day).Pairwise (fun a b => a.start < b.start) := by
  have hmem : ∀ (cur be : Int) (s : Slot), s ∈ slotLoop cur be →
      cur ≤ s.start ∧ s.start ≤ be - 1 := by
    intro cur be s h
    obtain ⟨h1, h2, -⟩ := slotLoopAux_mem _ _ _ _ h
    exact ⟨h1, h2⟩
  simp only [generateSlotsForDay, WORKING_BLOCKS, List.map_cons, List.map_nil,
    List.flatten_cons, List.flatten_nil, List.append_nil]
  refine List.pairwise_append.mpr ⟨slotLoopAux_pairwise _ _ _, ?_, ?_⟩
  · refine List.pairwise_append.mpr ⟨slotLoopAux_pairwise _ _ _, slotLoopAux_pairwise _ _ _, ?_⟩
    intro a ha b hb
    obtain ⟨-, ha2⟩ := hmem _ _ a ha
    obtain ⟨hb1, -⟩ := hmem _ _ b hb
    omega
  · intro a ha b hb
    obtain ⟨-, ha2⟩ := hmem _ _ a ha
    rcases List.mem_append.mp hb with hb | hb <;>
      · obtain ⟨hb1, -⟩ := hmem _ _ b hb
        omega

/-- The calendar-day starts the loop of `findNextAvailableSlot` actually
reaches with `n` iterations left: `day0` itself and, unless `sameDayOnly`
`break`s the loop, the following `n - 1` days. -/
def scanDays (day0 : Int) (sameDayOnly : Bool) : Nat → List Int
  | 0 => []
  | n + 1 => day0 :: (if sameDayOnly then [] else scanDays (day0 + 1440) sameDayOnly n)

/-- All candidate slots the day loop can inspect: the slots of every
scanned non-weekend day, in scan order. -/
def horizonSlots (day0 : Int) (sameDayOnly : Bool) (n : Nat) : List Slot :=
  ((scanDays day0 sameDayOnly n).filter
    (fun day => !isWeekendDay (dayOf day))).flatMap generateSlotsForDay

lemma scanDays_zero (day0 : Int) (sdo : Bool) : scanDays day0 sdo 0 = [] := rfl

lemma scanDays_succ_false (day0 : Int) (n : Nat) :
    scanDays day0 false (n + 1) = day0 :: scanDays (day0 + 1440) false n := rfl

lemma scanDays_succ_true (day0 : Int) (n : Nat) :
    scanDays day0 true (n + 1) = [day0] := rfl

lemma horizonSlots_zero (day0 : Int) (sdo : Bool) : horizonSlots day0 sdo 0 = [] := by
  simp [horizonSlots, scanDays_zero]

lemma horizonSlots_succ_false (day0 : Int) (n : Nat) :
    horizonSlots day0 false (n + 1)
      = (if isWeekendDay (dayOf day0) then [] else generateSlotsForDay day0)
          ++ horizonSlots (day0 + 1440) false n := by
  simp only [horizonSlots, scanDays_succ_false, List.filter_cons]
  by_cases hw : isWeekendDay (dayOf day0) <;> simp [hw]

lemma horizonSlots_succ_true (day0 : Int) (n : Nat) :
    horizonSlots day0 true (n + 1)
      = (if isWeekendDay (dayOf day0) then [] else generateSlotsForDay day0) := by
  simp only [horizonSlots, scanDays_succ_true, List.filter_cons]
  by_cases hw : isWeekendDay (dayOf day0) <;> simp [hw]

/-- The day loop of `findNextAvailableSlot` is the first match of the
per-slot test over all candidate slots of the horizon, in order. -/
lemma findGo_eq (store : List Booking) (st : String) (d : Details) (dur now : Int)
    (sdo : Bool) : ∀ (n : Nat) (day : Int),
    findGo store st d dur now sdo day n
      = ((horizonSlots day sdo n).find? (slotPred store st d dur now)).map
          (fun s => (s.start, s.start + dur)) := by
  intro n
  induction n with
  | zero => intro day; simp [findGo, horizonSlots_zero]
  | succ n ih =>
    intro day
    by_cases hw : isWeekendDay (dayOf day)
    · cases sdo
      · rw [horizonSlots_succ_false, if_pos hw]
        simp only [findGo, if_pos hw, List.nil_append]
        exact ih (day + 1440)
      · rw [horizonSlots_succ_true, if_pos hw]
        simp [findGo, hw]
    · cases sdo
      · rw [horizonSlots_succ_false, if_neg hw]
        cases hfind : (generateSlotsForDay day).find? (slotPred store st d dur now) with
        | some s => simp [findGo, hw, searchDay, List.find?_append, hfind]
        | none => simp [findGo, hw, searchDay, List.find?_append, hfind, ih (day + 1440)]
      · rw [horizonSlots_succ_true, if_neg hw]
        cases hfind : (generateSlotsForDay day).find? (slotPred store st d dur now) with
        | some s => simp [findGo, hw, searchDay, hfind]
        | none => simp [findGo, hw, searchDay, hfind]

/-- `find?` on a list sorted by `start` returns an element minimal among
all elements satisfying the test. -/
lemma find?_min {p : Slot → Bool} : ∀ (l : List Slot),
    l.Pairwise (fun a b => a.start < b.start) → ∀ x, l.find? p = some x →
    p x = true ∧ x ∈ l ∧ ∀ t ∈ l, p t = true → x.start ≤ t.start := by
  intro l
  induction l with
  | nil => intro _ x h; simp at h
  | cons a l ih =>
    intro hp x h
    by_cases ha : p a
    · rw [List.find?_cons_of_pos _ ha] at h
      obtain rfl : a = x := by injection h
      refine ⟨ha, List.mem_cons_self _ _, ?_⟩
      intro t ht _
      rcases List.mem_cons.mp ht with rfl | ht
      · exact le_refl _
      · exact le_of_lt (List.rel_of_pairwise_cons hp ht)
    · rw [List.find?_cons_of_neg _ (by simpa using ha)] at h
      obtain ⟨h1, h2, h3⟩ := ih hp.of_cons x h
      refine ⟨h1, List.mem_cons_of_mem _ h2, ?_⟩
      intro t ht hpt
      rcases List.mem_cons.mp ht with rfl | ht
      · exact absurd hpt ha
      · exact h3 t ht hpt

/-- Slots of a list of days that ascend in steps of at least a full day
are sorted by start. -/
lemma flatMap_gen_pairwise : ∀ (days : List Int),
    days.Pairwise (fun a b => a + 1440 ≤ b) →
    (days.flatMap generateSlotsForDay).Pairwise (fun a b => a.start < b.start) := by
  intro days
  induction days with
  | nil => intro _; simp
  | cons day days ih =>
    intro hp
    have : (day :: days).flatMap generateSlotsForDay
        = generateSlotsForDay day ++ days.flatMap generateSlotsForDay := by simp
    rw [this]
    refine List.pairwise_append.mpr ⟨generateSlotsForDay_pairwise day, ih hp.of_cons, ?_⟩
    intro a ha b hb
    obtain ⟨-, ha2⟩ := generateSlotsForDay_mem day a ha
    obtain ⟨day2, hday2, hb2⟩ := List.mem_flatMap.mp hb
    obtain ⟨hb1, -⟩ := generateSlotsForDay_mem day2 b hb2
    have : day + 1440 ≤ day2 := List.rel_of_pairwise_cons hp hday2
    omega

lemma scanDays_mem (sdo : Bool) : ∀ (n : Nat) (day0 day : Int), day ∈ scanDays day0 sdo n →
    ∃ k : Nat, k < n ∧ day = day0 + 1440 * (k : Int) ∧ (sdo = true → k = 0) := by
  intro n
  induction n with
  | zero => intro day0 day h; simp [scanDays] at h
  | succ n ih =>
    intro day0 day h
    simp only [scanDays] at h
    rcases List.mem_cons.mp h with rfl | h
    · exact ⟨0, Nat.succ_pos n, by simp, fun _ => rfl⟩
    · cases sdo
      · simp only [if_neg (Bool.false_ne_true)] at h
        obtain ⟨k, hk, rfl, -⟩ := ih (day0 + 1440) day h
        refine ⟨k + 1, by omega, by push_cast; ring, fun hc => by simp at hc⟩
      · simp at h

lemma scanDays_pairwise (sdo : Bool) : ∀ (n : Nat) (day0 : Int),
    (scanDays day0 sdo n).Pairwise (fun a b => a + 1440 ≤ b) := by
  intro n
  induction n with
  | zero => intro day0; simp [scanDays]
  | succ n ih =>
    intro day0
    simp only [scanDays]
    refine List.Pairwise.cons ?_ ?_
    · intro b hb
      cases sdo
      · simp only [if_neg (Bool.false_ne_true)] at hb
        obtain ⟨k, -, rfl, -⟩ := scanDays_mem false n (day0 + 1440) b hb
        have : (0 : Int) ≤ (k : Int) := Int.natCast_nonneg k
        omega
      · simp at hb
    · cases sdo
      · simpa using ih (day0 + 1440)
      · simp

lemma horizonSlots_pairwise (day0 : Int) (sdo : Bool) (n : Nat) :
    (horizonSlots day0 sdo n).Pairwise (fun a b => a.start < b.start) :=
  flatMap_gen_pairwise _ ((scanDays_pairwise sdo n day0).filter _)

/-- Membership in the horizon: every candidate slot lies inside the
working-hours span of a scanned, non-weekend day. -/
lemma horizonSlots_mem (day0 : Int) (sdo : Bool) (n : Nat) (s : Slot)
    (h : s ∈ horizonSlots day0 sdo n) :
    ∃ day ∈ scanDays day0 sdo n, isWeekendDay (dayOf day) = false
      ∧ s ∈ generateSlotsForDay day ∧ day + 510 ≤ s.start ∧ s.start ≤ day + 1319 := by
  obtain ⟨day, hday, hs⟩ := List.mem_flatMap.mp h
  obtain ⟨hday1, hday2⟩ := List.mem_filter.mp hday
  obtain ⟨h1, h2⟩ := generateSlotsForDay_mem day s hs
  exact ⟨day, hday1, by simpa using hday2, hs, h1, h2⟩

/-! ### Conflict-checker characterizations -/

/-- The condition under which the kidud loop of `checkConflicts` finds a
rejection: the candidate is a coded-entry request and some overlapping
coded-entry row shares a positive sodi count or a positive anan count
with it. -/
def kidudClash (rows : List Booking) (serviceType : String) (details : Details) : Bool :=
  isKidud serviceType && rows.any (fun r => isKidud r.serviceType &&
    ((decide (unitS details > 0) && decide (unitS r.details > 0)) ||
     (decide (unitA details > 0) && decide (unitA r.details > 0))))

lemma kidudRowMsg_none_of (nS nA : Int) (r : Booking)
    (h : isKidud r.serviceType = true →
      ¬(0 < nS ∧ 0 < unitS r.details) ∧ ¬(0 < nA ∧ 0 < unitA r.details)) :
    kidudRowMsg nS nA r = none := by
  simp only [kidudRowMsg]
  split_ifs with h1 hc1 hc2
  · exact absurd (by simpa using hc1) (h h1).1
  · exact absurd (by simpa using hc2) (h h1).2
  · rfl
  · rfl

lemma kidudRowMsg_isSome (nS nA : Int) (r : Booking)
    (hk : isKidud r.serviceType = true)
    (h : (nS > 0 ∧ unitS r.details > 0) ∨ (nA > 0 ∧ unitA r.details > 0)) :
    ∃ msg, kidudRowMsg nS nA r = some msg := by
  simp only [kidudRowMsg]
  rw [if_pos hk]
  by_cases hS : (decide (nS > 0) && decide (unitS r.details > 0)) = true
  · rw [if_pos hS]; exact ⟨_, rfl⟩
  · rcases h with ⟨h1, h2⟩ | ⟨h1, h2⟩
    · exact absurd (by simp [h1, h2]) hS
    · rw [if_neg hS, if_pos (by simp [h1, h2])]; exact ⟨_, rfl⟩

lemma checkConflicts_reject_of_two (store : List Booking) (s e : Int) (st : String)
    (d : Details) (h2 : (overlapping store s e).length ≥ 2) :
    (checkConflicts store s e st d).ok = false := by
  simp only [checkConflicts]
  rw [if_pos h2]

lemma checkConflicts_ok_of (store : List Booking) (s e : Int) (st : String) (d : Details)
    (h1 : (overlapping store s e).length ≤ 1)
    (hcl : kidudClash (overlapping store s e) st d = false) :
    checkConflicts store s e st d = ⟨true, ""⟩ := by
  simp only [checkConflicts]
  rw [if_neg (by omega)]
  by_cases hk : isKidud st = true
  · rw [if_pos hk]
    have hnone : (overlapping store s e).findSome? (kidudRowMsg (unitS d) (unitA d)) = none := by
      rw [List.findSome?_eq_none_iff]
      intro r hr
      apply kidudRowMsg_none_of
      intro hkr
      simp only [kidudClash, hk, Bool.true_and, List.any_eq_false] at hcl
      have hthis := hcl r hr
      simp only [hkr, Bool.true_and, Bool.or_eq_true, Bool.and_eq_true,
        decide_eq_true_eq, not_or, not_and] at hthis
      constructor
      · intro hc; exact absurd hc.2 (hthis.1 hc.1)
      · intro hc; exact absurd hc.2 (hthis.2 hc.1)
    rw [hnone]
  · rw [if_neg hk]

/-- C2: the conflict check rejects every candidate that two or more
existing bookings overlap, regardless of service type; a candidate that
overlaps at most one existing booking and triggers no coded-entry
exclusivity rule is admissible (the cap of two concurrent bookings). -/
theorem overlap_cap_admissibility (store : List Booking) (s e : Int) (st : String)
    (d : Details) :
    ((overlapping store s e).length ≥ 2 → (checkConflicts store s e st d).ok = false)
    ∧ ((overlapping store s e).length ≤ 1 →
        kidudClash (overlapping store s e) st d = false →
        (checkConflicts store s e st d).ok = true) :=
  ⟨fun h2 => checkConflicts_reject_of_two store s e st d h2,
   fun h1 hcl => by rw [checkConflicts_ok_of store s e st d h1 hcl]⟩

/-- Witness for C2: with two persisted bookings overlapping [510, 520),
a third overlapping candidate is rejected; with only one, a generic
(non-coded-entry) candidate is admitted — double booking up to two. -/
theorem overlap_cap_admissibility_witness :
    ((overlapping [⟨"chul", ⟨.absent, .absent, .absent, .absent⟩, 500, 600, false⟩,
        ⟨"hotzla", ⟨.absent, .absent, .absent, .absent⟩, 505, 700, true⟩] 510 520).length ≥ 2
      ∧ (checkConflicts [⟨"chul", ⟨.absent, .absent, .absent, .absent⟩, 500, 600, false⟩,
          ⟨"hotzla", ⟨.absent, .absent, .absent, .absent⟩, 505, 700, true⟩] 510 520
          "chul" ⟨.absent, .absent, .absent, .absent⟩).ok = false)
    ∧ (checkConflicts [⟨"chul", ⟨.absent, .absent, .absent, .absent⟩, 500, 600, false⟩] 510 520
        "chul" ⟨.absent, .absent, .absent, .absent⟩).ok = true :=
  ⟨⟨by decide,
    (overlap_cap_admissibility [⟨"chul", ⟨.absent, .absent, .absent, .absent⟩, 500, 600, false⟩,
      ⟨"hotzla", ⟨.absent, .absent, .absent, .absent⟩, 505, 700, true⟩] 510 520
      "chul" ⟨.absent, .absent, .absent, .absent⟩).1 (by decide)⟩,
   (overlap_cap_admissibility [⟨"chul", ⟨.absent, .absent, .absent, .absent⟩, 500, 600, false⟩]
      510 520 "chul" ⟨.absent, .absent, .absent, .absent⟩).2 (by decide) (by decide)⟩

lemma overlapping_single (b : Booking) (s e : Int) (h1 : s < b.endTime) (h2 : b.startTime < e) :
    overlapping [b] s e = [b] := by
  have c1 : decide (b.endTime ≤ s) = false := decide_eq_false (by omega)
  have c2 : decide (b.startTime ≥ e) = false := decide_eq_false (by omega)
  simp [overlapping, c1, c2]

lemma checkConflicts_single (b : Booking) (s e : Int) (st : String) (d : Details)
    (hov : overlapping [b] s e = [b]) (hk : isKidud st = true) :
    checkConflicts [b] s e st d
      = match kidudRowMsg (unitS d) (unitA d) b with
        | some msg => ⟨false, msg⟩
        | none => ⟨true, ""⟩ := by
  simp only [checkConflicts, hov]
  rw [if_neg (by simp), if_pos hk]
  rw [List.findSome?_cons]
  cases kidudRowMsg (unitS d) (unitA d) b <;> simp

/-- C3: for two overlapping coded-entry (kidud) requests, a shared
positive sodi count makes the second booking fail with a conflict, a
shared positive anan count likewise; one request with only a positive
sodi count and one with only a positive anan count both book
successfully — the two categories are independent. -/
theorem kidud_exclusivity (st1 st2 : String) (d1 d2 : Details) (s1 s2 : Int) (dn1 dn2 : Bool)
    (hk1 : isKidud st1 = true) (hk2 : isKidud st2 = true)
    (hfit1 : fitsWithinBlock s1 (s1 + computeDuration st1 d1) = true)
    (hfit2 : fitsWithinBlock s2 (s2 + computeDuration st2 d2) = true)
    (hov1 : s2 < s1 + computeDuration st1 d1) (hov2 : s1 < s2 + computeDuration st2 d2) :
    ((unitS d1 > 0 ∧ unitS d2 > 0) → ∃ msg,
        bookExplicit [⟨st1, d1, s1, s1 + computeDuration st1 d1, dn1⟩] st2 d2 s2 dn2
          = .conflict msg)
    ∧ ((unitA d1 > 0 ∧ unitA d2 > 0) → ∃ msg,
        bookExplicit [⟨st1, d1, s1, s1 + computeDuration st1 d1, dn1⟩] st2 d2 s2 dn2
          = .conflict msg)
    ∧ ((unitS d1 > 0 ∧ unitA d1 ≤ 0 ∧ unitA d2 > 0 ∧ unitS d2 ≤ 0) →
        bookExplicit [] st1 d1 s1 dn1
          = .booked s1 (s1 + computeDuration st1 d1)
              [⟨st1, d1, s1, s1 + computeDuration st1 d1, dn1⟩]
        ∧ bookExplicit [⟨st1, d1, s1, s1 + computeDuration st1 d1, dn1⟩] st2 d2 s2 dn2
          = .booked s2 (s2 + computeDuration st2 d2)
              [⟨st1, d1, s1, s1 + computeDuration st1 d1, dn1⟩,
               ⟨st2, d2, s2, s2 + computeDuration st2 d2, dn2⟩]) := by
  have hrows : overlapping [⟨st1, d1, s1, s1 + computeDuration st1 d1, dn1⟩]
      s2 (s2 + computeDuration st2 d2)
      = [⟨st1, d1, s1, s1 + computeDuration st1 d1, dn1⟩] :=
    overlapping_single _ _ _ hov1 hov2
  refine ⟨?_, ?_, ?_⟩
  · rintro ⟨h1, h2⟩
    obtain ⟨msg, hmsg⟩ := kidudRowMsg_isSome (unitS d2) (unitA d2)
      ⟨st1, d1, s1, s1 + computeDuration st1 d1, dn1⟩ hk1 (Or.inl ⟨h2, h1⟩)
    have hcc := checkConflicts_single _ s2 (s2 + computeDuration st2 d2) st2 d2 hrows hk2
    rw [hmsg] at hcc
    exact ⟨msg, by simp [bookExplicit, hfit2, hcc]⟩
  · rintro ⟨h1, h2⟩
    by_cases hS : (unitS d2 > 0 ∧ unitS d1 > 0)
    · obtain ⟨msg, hmsg⟩ := kidudRowMsg_isSome (unitS d2) (unitA d2)
        ⟨st1, d1, s1, s1 + computeDuration st1 d1, dn1⟩ hk1 (Or.inl hS)
      have hcc := checkConflicts_single _ s2 (s2 + computeDuration st2 d2) st2 d2 hrows hk2
      rw [hmsg] at hcc
      exact ⟨msg, by simp [bookExplicit, hfit2, hcc]⟩
    · obtain ⟨msg, hmsg⟩ := kidudRowMsg_isSome (unitS d2) (unitA d2)
        ⟨st1, d1, s1, s1 + computeDuration st1 d1, dn1⟩ hk1 (Or.inr ⟨h2, h1⟩)
      have hcc := checkConflicts_single _ s2 (s2 + computeDuration st2 d2) st2 d2 hrows hk2
      rw [hmsg] at hcc
      exact ⟨msg, by simp [bookExplicit, hfit2, hcc]⟩
  · rintro ⟨h1, h2, h3, h4⟩
    have hok1 : checkConflicts [] s1 (s1 + computeDuration st1 d1) st1 d1 = ⟨true, ""⟩ :=
      checkConflicts_ok_of [] _ _ st1 d1 (by simp [overlapping]) (by simp [kidudClash, overlapping])
    have hnone : kidudRowMsg (unitS d2) (unitA d2)
        ⟨st1, d1, s1, s1 + computeDuration st1 d1, dn1⟩ = none := by
      refine kidudRowMsg_none_of _ _ _ (fun _ => ⟨?_, ?_⟩)
      · rintro ⟨hc1, -⟩; omega
      · rintro ⟨-, hc2⟩
        have hc2' : 0 < unitA d1 := hc2
        omega
    have hcc := checkConflicts_single _ s2 (s2 + computeDuration st2 d2) st2 d2 hrows hk2
    rw [hnone] at hcc
    exact ⟨by simp [bookExplicit, hfit1, hok1],
           by simp [bookExplicit, hfit2, hcc]⟩

/-- Witness for C3, at two kidud requests on [510, 520) of day 0 sharing
a positive sodi count: the second attempt is rejected with a conflict. -/
theorem kidud_exclusivity_witness :
    ∃ msg, bookExplicit
        [⟨"kidud", ⟨.num 1, .absent, .absent, .absent⟩, 510,
          510 + computeDuration "kidud" ⟨.num 1, .absent, .absent, .absent⟩, false⟩]
        "kidud" ⟨.num 1, .absent, .absent, .absent⟩ 510 false = .conflict msg :=
  (kidud_exclusivity "kidud" "kidud" ⟨.num 1, .absent, .absent, .absent⟩
    ⟨.num 1, .absent, .absent, .absent⟩ 510 510 false false (by decide) (by decide)
    (by decide) (by decide) (by decide) (by decide)).1 (by decide)

/-! ### Duration, explicit booking, and weekend behaviour -/

/-- C4: for every coded-entry (kidud) request the duration is
`max(primary*10, secondary*10)` floored at 10, with each unit count
clamped to a non-negative integer (the code's unclamped counts give the
same value because of the 10-minute floor); either field spelling is
accepted, and a missing or malformed count defaults to 0; in particular
3/0 units give 30 minutes and 0/1 give the 10-minute floor. -/
theorem kidud_duration_formula (serviceType : String) (d : Details)
    (h : isKidud serviceType = true) :
    computeDuration serviceType d
        = max (max (max (unitS d) 0 * 10) (max (unitA d) 0 * 10)) 10
      ∧ computeDuration "kidud" ⟨.num 3, .num 0, .absent, .absent⟩ = 30
      ∧ computeDuration "kidud" ⟨.num 0, .num 1, .absent, .absent⟩ = 10
      ∧ unitS ⟨.absent, .absent, .absent, .absent⟩ = 0
      ∧ unitS ⟨.str "abc", .absent, .absent, .absent⟩ = 0
      ∧ unitS ⟨.absent, .absent, .num 4, .absent⟩ = 4
      ∧ unitA ⟨.num 9, .absent, .absent, .num 7⟩ = 7 := by
  refine ⟨?_, by decide, by decide, by decide, by decide, by decide, by decide⟩
  simp only [computeDuration, h, if_true]
  omega

/-- Witness for C4 at a concrete kidud request with 2 sodi units. -/
theorem kidud_duration_formula_witness :
    isKidud "kidud" = true
    ∧ computeDuration "kidud" ⟨.num 2, .absent, .absent, .absent⟩
        = max (max (max (unitS ⟨.num 2, .absent, .absent, .absent⟩) 0 * 10)
            (max (unitA ⟨.num 2, .absent, .absent, .absent⟩) 0 * 10)) 10 :=
  ⟨by decide, (kidud_duration_formula "kidud" ⟨.num 2, .absent, .absent, .absent⟩ (by decide)).1⟩

/-- C7: the explicit branch of `POST /book` computes the duration, builds
`[start, start+duration)`, fails when the interval fits no working block,
fails with the conflict message when the check rejects, and otherwise
persists and returns an interval whose length is exactly the duration. -/
theorem bookExplicit_contract (store : List Booking) (st : String) (d : Details)
    (startT : Int) (dn : Bool) :
    (fitsWithinBlock startT (startT + computeDuration st d) = false →
      bookExplicit store st d startT dn = .invalidInterval)
    ∧ (∀ msg, fitsWithinBlock startT (startT + computeDuration st d) = true →
        checkConflicts store startT (startT + computeDuration st d) st d
          = ⟨false, msg⟩ →
        bookExplicit store st d startT dn = .conflict msg)
    ∧ (fitsWithinBlock startT (startT + computeDuration st d) = true →
        (checkConflicts store startT (startT + computeDuration st d) st d).ok = true →
        bookExplicit store st d startT dn
          = .booked startT (startT + computeDuration st d)
              (store ++ [⟨st, d, startT, startT + computeDuration st d, dn⟩])
          ∧ (startT + computeDuration st d) - startT = computeDuration st d) := by
  refine ⟨?_, ?_, ?_⟩
  · intro hfit
    simp [bookExplicit, hfit]
  · intro msg hfit hcc
    simp [bookExplicit, hfit, hcc]
  · intro hfit hok
    exact ⟨by simp [bookExplicit, hfit, hok], by ring⟩

/-- Witness for C7: a 5-minute "chul" request at 08:30 of day 0 fits and
books; at 00:00 it fits no block and is rejected. -/
theorem bookExplicit_contract_witness :
    (fitsWithinBlock 0 (0 + computeDuration "chul" ⟨.absent, .absent, .absent, .absent⟩) = false
      ∧ bookExplicit [] "chul" ⟨.absent, .absent, .absent, .absent⟩ 0 false = .invalidInterval)
    ∧ (bookExplicit [] "chul" ⟨.absent, .absent, .absent, .absent⟩ 510 false
        = .booked 510 (510 + computeDuration "chul" ⟨.absent, .absent, .absent, .absent⟩)
            ([] ++ [⟨"chul", ⟨.absent, .absent, .absent, .absent⟩, 510,
              510 + computeDuration "chul" ⟨.absent, .absent, .absent, .absent⟩, false⟩])
        ∧ (510 + computeDuration "chul" ⟨.absent, .absent, .absent, .absent⟩) - 510
            = computeDuration "chul" ⟨.absent, .absent, .absent, .absent⟩) :=
  ⟨⟨by decide, (bookExplicit_contract [] "chul" ⟨.absent, .absent, .absent, .absent⟩ 0 false).1
      (by decide)⟩,
   (bookExplicit_contract [] "chul" ⟨.absent, .absent, .absent, .absent⟩ 510 false).2.2
      (by decide) (by decide)⟩

lemma availability_weekend_empty (store : List Booking) (st : String) (d : Details)
    (dateT now : Int) (hw : isWeekendDay (dayOf dateT) = true) :
    availabilityForDay store st d dateT now = [] := by
  simp [availabilityForDay, dayOf_startOfDay, hw]

/-- C9: the explicit booking path performs no weekend check — an explicit
request starting on a weekend day that fits a working block and passes
the conflict check is persisted, even though the availability listing for
that same day is empty. -/
theorem explicit_weekend_booking (store : List Booking) (st : String) (d : Details)
    (startT : Int) (dn : Bool)
    (hw : isWeekendDay (dayOf startT) = true)
    (hfit : fitsWithinBlock startT (startT + computeDuration st d) = true)
    (hok : (checkConflicts store startT (startT + computeDuration st d) st d).ok = true) :
    bookExplicit store st d startT dn
      = .booked startT (startT + computeDuration st d)
          (store ++ [⟨st, d, startT, startT + computeDuration st d, dn⟩])
    ∧ ∀ now, availabilityForDay store st d startT now = [] :=
  ⟨by simp [bookExplicit, hfit, hok],
   fun now => availability_weekend_empty store st d startT now hw⟩

/-- Witness for C9: booking "chul" at 08:30 of day 1 (a Friday) succeeds
although availability for that Friday is empty. -/
theorem explicit_weekend_booking_witness :
    isWeekendDay (dayOf 1950) = true
    ∧ bookExplicit [] "chul" ⟨.absent, .absent, .absent, .absent⟩ 1950 false
        = .booked 1950 (1950 + computeDuration "chul" ⟨.absent, .absent, .absent, .absent⟩)
            ([] ++ [⟨"chul", ⟨.absent, .absent, .absent, .absent⟩, 1950,
              1950 + computeDuration "chul" ⟨.absent, .absent, .absent, .absent⟩, false⟩])
    ∧ ∀ now, availabilityForDay [] "chul" ⟨.absent, .absent, .absent, .absent⟩ 1950 now = [] :=
  ⟨by decide,
   (explicit_weekend_booking [] "chul" ⟨.absent, .absent, .absent, .absent⟩ 1950 false
      (by decide) (by decide) (by decide)).1,
   (explicit_weekend_booking [] "chul" ⟨.absent, .absent, .absent, .absent⟩ 1950 false
      (by decide) (by decide) (by decide)).2⟩

lemma kidudRowMsg_update_done (nS nA : Int) (b : Booking) (v : Bool) :
    kidudRowMsg nS nA { b with done := v } = kidudRowMsg nS nA b := rfl

lemma overlapping_map_done (store : List Booking) (f : Booking → Bool) (s e : Int) :
    overlapping (store.map (fun b => { b with done := f b })) s e
      = (overlapping store s e).map (fun b => { b with done := f b }) := by
  simp only [overlapping, List.filter_map]
  rfl

/-- C10: `checkConflicts` reads only the interval, service type and
details of the persisted rows — the `done` flag is never consulted, so
rewriting it arbitrarily changes no admissibility decision, and rows
marked done still count toward the two-booking cap and toward
coded-entry exclusivity (the two closed conjuncts). -/
theorem done_flag_ignored (store : List Booking) (f : Booking → Bool) (s e : Int)
    (st : String) (d : Details) :
    checkConflicts (store.map (fun b => { b with done := f b })) s e st d
      = checkConflicts store s e st d
    ∧ (checkConflicts [⟨"chul", ⟨.absent, .absent, .absent, .absent⟩, 510, 515, true⟩,
        ⟨"hotzla", ⟨.absent, .absent, .absent, .absent⟩, 510, 515, true⟩] 510 515
        "chul" ⟨.absent, .absent, .absent, .absent⟩).ok = false
    ∧ (checkConflicts [⟨"kidud", ⟨.num 1, .absent, .absent, .absent⟩, 510, 520, true⟩] 510 520
        "kidud" ⟨.num 1, .absent, .absent, .absent⟩).ok = false := by
  refine ⟨?_, by decide, by decide⟩
  simp only [checkConflicts, overlapping_map_done, List.length_map, List.findSome?_map]
  rfl

/-! ### The worked availability example and weekend exclusion -/

/-- Counterexample to C1's second half: after booking the 08:30 slot of
day 0 once, a second availability request still lists 08:30 (minute 510)
as the earliest start and does not omit it — one overlapping booking
does not exhaust a slot under the cap of two. -/
theorem availability_after_single_booking_cex :
    (availabilityForDay [⟨"chul", ⟨.absent, .absent, .absent, .absent⟩, 510, 515, false⟩]
      "chul" ⟨.absent, .absent, .absent, .absent⟩ 0 480).head? = some 510
    ∧ 510 ∈ availabilityForDay [⟨"chul", ⟨.absent, .absent, .absent, .absent⟩, 510, 515, false⟩]
        "chul" ⟨.absent, .absent, .absent, .absent⟩ 0 480 := by
  constructor
  · decide
  · decide

/-- C1 as amended: with the working blocks of the source, a 5-minute
service, an empty store and now = 08:00 of (non-weekend) day 0, the first
available slot is 08:30 and booking it yields [08:30, 08:35); a second
availability request still lists 08:30 first (a slot is exhausted only by
two overlapping bookings); after 08:30 is booked a second time,
availability lists 08:35 as the earliest start and omits 08:30. -/
theorem availability_worked_example_amended :
    (availabilityForDay [] "chul" ⟨.absent, .absent, .absent, .absent⟩ 0 480).head? = some 510
    ∧ bookExplicit [] "chul" ⟨.absent, .absent, .absent, .absent⟩ 510 false
        = .booked 510 515 [⟨"chul", ⟨.absent, .absent, .absent, .absent⟩, 510, 515, false⟩]
    ∧ bookExplicit [⟨"chul", ⟨.absent, .absent, .absent, .absent⟩, 510, 515, false⟩]
        "chul" ⟨.absent, .absent, .absent, .absent⟩ 510 false
        = .booked 510 515 [⟨"chul", ⟨.absent, .absent, .absent, .absent⟩, 510, 515, false⟩,
            ⟨"chul", ⟨.absent, .absent, .absent, .absent⟩, 510, 515, false⟩]
    ∧ (availabilityForDay [⟨"chul", ⟨.absent, .absent, .absent, .absent⟩, 510, 515, false⟩,
          ⟨"chul", ⟨.absent, .absent, .absent, .absent⟩, 510, 515, false⟩]
        "chul" ⟨.absent, .absent, .absent, .absent⟩ 0 480).head? = some 515
    ∧ 510 ∉ availabilityForDay [⟨"chul", ⟨.absent, .absent, .absent, .absent⟩, 510, 515, false⟩,
          ⟨"chul", ⟨.absent, .absent, .absent, .absent⟩, 510, 515, false⟩]
        "chul" ⟨.absent, .absent, .absent, .absent⟩ 0 480 := by
  refine ⟨by decide, by decide, by decide, by decide, by decide⟩

/-- Counterexample to C5's first half: `generateSlotsForDay` itself has
no weekend check — day 1 (a Friday) still gets a non-empty slot list. -/
theorem weekend_slots_nonempty_cex :
    isWeekendDay (dayOf 1440) = true ∧ generateSlotsForDay 1440 ≠ [] := by
  constructor
  · decide
  · decide

/-- C5 as amended: slot generation itself does not exclude weekends (the
slot list of a Friday is non-empty), but both callers do — availability
for a weekend day is empty, and the auto search never returns a slot on a
weekend day (hence never a slot of a day whose slot list is empty). -/
theorem weekend_exclusion_amended (store : List Booking) (st : String) (d : Details)
    (dateT now fromT : Int) (sdo : Bool) (maxDays : Nat) :
    (isWeekendDay (dayOf dateT) = true → availabilityForDay store st d dateT now = [])
    ∧ (∀ s e, findNextAvailableSlot store st d fromT now sdo maxDays = some (s, e) →
        isWeekendDay (dayOf s) = false ∧ generateSlotsForDay (startOfDay s) ≠ [])
    ∧ (isWeekendDay (dayOf 1440) = true ∧ generateSlotsForDay 1440 ≠ []) := by
  refine ⟨fun hw => availability_weekend_empty store st d dateT now hw, ?_, by decide, by decide⟩
  intro s e h
  simp only [findNextAvailableSlot] at h
  rw [findGo_eq] at h
  cases hfind : (horizonSlots (startOfDay fromT) sdo (maxDays + 1)).find?
      (slotPred store st d (computeDuration st d) now) with
  | none => rw [hfind] at h; simp at h
  | some slot =>
    rw [hfind] at h
    have h' : (slot.start, slot.start + computeDuration st d) = (s, e) := by simpa using h
    injection h' with hs he
    have hmem := List.mem_of_find?_eq_some hfind
    obtain ⟨day, hday, hwk, hgen, hb1, hb2⟩ := horizonSlots_mem _ _ _ _ hmem
    obtain ⟨k, hk, rfl, -⟩ := scanDays_mem sdo _ _ day hday
    have hd : dayOf s = dayOf (startOfDay fromT + 1440 * (k : Int)) := by
      rw [← hs]
      simp only [dayOf, startOfDay] at hb1 hb2 ⊢
      omega
    have hsod : startOfDay s = startOfDay fromT + 1440 * (k : Int) := by
      rw [← hs]
      simp only [startOfDay, dayOf] at hb1 hb2 ⊢
      omega
    refine ⟨by rw [hd]; exact hwk, ?_⟩
    rw [hsod]
    intro hc
    rw [hc] at hgen
    simp at hgen

/-- Witness for C5's amended theorem: availability for Friday day 1 is
empty, and the search started on that Friday lands on Sunday (day 3,
minute 4830), a non-weekend day with a non-empty slot list. -/
theorem weekend_exclusion_amended_witness :
    availabilityForDay [] "chul" ⟨.absent, .absent, .absent, .absent⟩ 1440 1440 = []
    ∧ (isWeekendDay (dayOf 4830) = false
        ∧ generateSlotsForDay (startOfDay 4830) ≠ []) :=
  ⟨(weekend_exclusion_amended [] "chul" ⟨.absent, .absent, .absent, .absent⟩
      1440 1440 1440 false 30).1 (by decide),
   (weekend_exclusion_amended [] "chul" ⟨.absent, .absent, .absent, .absent⟩
      1440 1440 1440 false 30).2.1 4830 4835 (by decide)⟩

/-! ### Auto-scheduling: determinism, minimality, horizon -/

lemma scanDays_length (sdo : Bool) : ∀ (n : Nat) (day0 : Int),
    (scanDays day0 sdo n).length ≤ n := by
  intro n
  induction n with
  | zero => intro day0; simp [scanDays]
  | succ n ih =>
    intro day0
    cases sdo
    · simpa [scanDays] using ih (day0 + 1440)
    · simp [scanDays]

/-- C6: on a fixed store and a fixed "now" the auto search is a pure
function (re-running returns the same result), and on an empty store the
returned slot is the chronologically first candidate of the horizon that
passes the per-slot admissibility test — i.e. the earliest admissible
slot of the first day that has one. -/
theorem auto_first_slot_deterministic (st : String) (d : Details) (fromT now : Int)
    (maxDays : Nat) :
    (∀ r1 r2, r1 = findNextAvailableSlot [] st d fromT now false maxDays →
        r2 = findNextAvailableSlot [] st d fromT now false maxDays → r1 = r2)
    ∧ ∀ s e, findNextAvailableSlot [] st d fromT now false maxDays = some (s, e) →
        e = s + computeDuration st d
        ∧ (∃ slot ∈ horizonSlots (startOfDay fromT) false (maxDays + 1),
            slot.start = s ∧ slotPred [] st d (computeDuration st d) now slot = true)
        ∧ ∀ t ∈ horizonSlots (startOfDay fromT) false (maxDays + 1),
            slotPred [] st d (computeDuration st d) now t = true → s ≤ t.start := by
  refine ⟨fun r1 r2 h1 h2 => h1.trans h2.symm, ?_⟩
  intro s e h
  simp only [findNextAvailableSlot] at h
  rw [findGo_eq] at h
  cases hfind : (horizonSlots (startOfDay fromT) false (maxDays + 1)).find?
      (slotPred [] st d (computeDuration st d) now) with
  | none => rw [hfind] at h; simp at h
  | some slot =>
    rw [hfind] at h
    have h' : (slot.start, slot.start + computeDuration st d) = (s, e) := by simpa using h
    injection h' with hs he
    obtain ⟨hp, hmem, hmin⟩ :=
      find?_min (horizonSlots (startOfDay fromT) false (maxDays + 1))
        (horizonSlots_pairwise _ _ _) slot hfind
    refine ⟨by rw [← hs, ← he], ⟨slot, hmem, hs, hp⟩, ?_⟩
    intro t ht hpt
    rw [← hs]
    exact hmin t ht hpt

/-- Witness for C6: from an empty store at 08:00 of day 0, the search
returns the 08:30 slot, which is minimal among all admissible slots. -/
theorem auto_first_slot_deterministic_witness :
    findNextAvailableSlot [] "chul" ⟨.absent, .absent, .absent, .absent⟩ 480 480 false 30
      = some (510, 515)
    ∧ ((515 : Int) = 510 + computeDuration "chul" ⟨.absent, .absent, .absent, .absent⟩
        ∧ (∃ slot ∈ horizonSlots (startOfDay 480) false (30 + 1),
            slot.start = 510
            ∧ slotPred [] "chul" ⟨.absent, .absent, .absent, .absent⟩
                (computeDuration "chul" ⟨.absent, .absent, .absent, .absent⟩) 480 slot = true)
        ∧ ∀ t ∈ horizonSlots (startOfDay 480) false (30 + 1),
            slotPred [] "chul" ⟨.absent, .absent, .absent, .absent⟩
              (computeDuration "chul" ⟨.absent, .absent, .absent, .absent⟩) 480 t = true →
            (510 : Int) ≤ t.start) :=
  ⟨by decide,
   (auto_first_slot_deterministic "chul" ⟨.absent, .absent, .absent, .absent⟩ 480 480 30).2
     510 515 (by decide)⟩

/-- C8: the auto search is exactly a first-match scan over the bounded
horizon — the scanned days start at searchFrom's day, number at most
`maxDays + 1` (only the first day when `sameDayOnly`), weekend days are
filtered out, and the search returns `none` (`NoAvailability`) precisely
when no scanned candidate slot is admissible.  The fuel-indexed loop
terminates by construction. -/
theorem auto_search_horizon (store : List Booking) (st : String) (d : Details)
    (fromT now : Int) (sdo : Bool) (maxDays : Nat) :
    findNextAvailableSlot store st d fromT now sdo maxDays
      = ((horizonSlots (startOfDay fromT) sdo (maxDays + 1)).find?
          (slotPred store st d (computeDuration st d) now)).map
          (fun s => (s.start, s.start + computeDuration st d))
    ∧ (scanDays (startOfDay fromT) sdo (maxDays + 1)).length ≤ maxDays + 1
    ∧ (scanDays (startOfDay fromT) sdo (maxDays + 1)).head? = some (startOfDay fromT)
    ∧ (sdo = true → scanDays (startOfDay fromT) sdo (maxDays + 1) = [startOfDay fromT])
    ∧ (findNextAvailableSlot store st d fromT now sdo maxDays = none ↔
        ∀ t ∈ horizonSlots (startOfDay fromT) sdo (maxDays + 1),
          slotPred store st d (computeDuration st d) now t = false) := by
  have hchar : findNextAvailableSlot store st d fromT now sdo maxDays
      = ((horizonSlots (startOfDay fromT) sdo (maxDays + 1)).find?
          (slotPred store st d (computeDuration st d) now)).map
          (fun s => (s.start, s.start + computeDuration st d)) := by
    simp only [findNextAvailableSlot]
    exact findGo_eq store st d (computeDuration st d) now sdo (maxDays + 1) (startOfDay fromT)
  refine ⟨hchar, scanDays_length sdo _ _, rfl, fun hs => by subst hs; rfl, ?_⟩
  rw [hchar]
  cases hfind : (horizonSlots (startOfDay fromT) sdo (maxDays + 1)).find?
      (slotPred store st d (computeDuration st d) now) with
  | none =>
    constructor
    · intro _ t ht
      exact Bool.eq_false_iff.mpr (List.find?_eq_none.mp hfind t ht)
    · intro _
      rfl
  | some slot =>
    constructor
    · intro hc
      exact absurd hc (by simp)
    · intro hall
      have h1 := List.find?_some hfind
      have h2 := hall slot (List.mem_of_find?_eq_some hfind)
      rw [h1] at h2
      cases h2

/-- Witness for C8 with `sameDayOnly = true`: the scanned day list is
exactly the single day of searchFrom, and its length is within the
horizon bound. -/
theorem auto_search_horizon_witness :
    scanDays (startOfDay 480) true (30 + 1) = [startOfDay 480]
    ∧ (scanDays (startOfDay 480) true (30 + 1)).length ≤ 30 + 1 :=
  ⟨(auto_search_horizon [] "chul" ⟨.absent, .absent, .absent, .absent⟩
      480 480 true 30).2.2.2.1 rfl,
   (auto_search_horizon [] "chul" ⟨.absent, .absent, .absent, .absent⟩
      480 480 true 30).2.1⟩
